import Mathlib

/-!
Verification of the chfs-py file server core against its specification.

The definitions below are shallow embeddings of the Python source:

* `app/ipfilter.py` — CIDR allow/deny decision (`parse_cidr`,
  `parse_networks`, `get_most_specific`, `check_ip_allowed`);
* `app/rules.py` — rule evaluator (`evaluate`, `evaluate_rule`,
  `check_path_allowed`);
* `app/fs.py` — `safe_join` and the upload streaming loop of
  `save_uploaded_file`;
* `app/models.py` — `HttpRange.resolve`, `TokenBucket.consume`,
  the `RuleInfo` defaults;
* `app/utils.py` — `validate_filename`, `normalize_path`;
* `app/direct_transfer.py` — `DirectTransferStore.prepare_download`
  together with `_prune_locked` and `_save_locked`.

Python's `ipaddress` standard library is embedded abstractly: a CIDR
string is represented by the shape the library assigns to it (wildcard,
bare address, network with an explicit prefix, or unparseable), and
addresses are natural numbers tagged with the address family.  File
system state (direct transfers, upload targets) is explicit data carried
through the functions.  Machine floats of the token bucket are embedded
as rationals.
-/

/-- Address family of an IP address or network (`version` in Python). -/
inductive IpFamily where
  | v4
  | v6
deriving DecidableEq

/-- Bit width of an address of the given family. -/
def IpFamily.bits : IpFamily → Nat
  | .v4 => 32
  | .v6 => 128

/-- An `ipaddress.IPv4Address` / `IPv6Address`: family plus numeric value.
The numeric value is taken modulo `2 ^ bits` wherever it is used. -/
structure IpAddr where
  family : IpFamily
  addr : Nat
deriving DecidableEq

/-- An `ipaddress.IPv4Network` / `IPv6Network`: the `network_address` is
stored already masked to the prefix, as the Python library guarantees. -/
structure IpNetwork where
  family : IpFamily
  network_address : Nat
  prefixlen : Nat
deriving DecidableEq

/-- Mask a numeric address of width `bits` down to its first `p` bits
(what `ip_network(..., strict=False)` does to the host part). -/
def maskAddr (bits a p : Nat) : Nat :=
  (a % 2 ^ bits) / 2 ^ (bits - p) * 2 ^ (bits - p)

/-- Abstract syntax of a CIDR list entry, classifying the strings exactly
the way `parse_cidr` in `app/ipfilter.py` does: the literal `"*"`, a bare
IPv4/IPv6 address without a mask, a network in slash notation with its
numeric prefix, or an unparseable string. -/
inductive CidrEntry where
  | wildcard
  | bareV4 (a : Nat)
  | bareV6 (a : Nat)
  | netV4 (a p : Nat)
  | netV6 (a p : Nat)
  | unparseable
deriving DecidableEq

/-- `parse_cidr` from `app/ipfilter.py`: `"*"` becomes the IPv4 network
`0.0.0.0/0`; a bare address becomes a `/32` or `/128` host network; slash
notation is parsed with `strict=False` (host bits masked away) and an
out-of-range prefix is a `ValueError`, i.e. `None`. -/
def parse_cidr : CidrEntry → Option IpNetwork
  | .wildcard => some ⟨.v4, 0, 0⟩
  | .bareV4 a => some ⟨.v4, a % 2 ^ 32, 32⟩
  | .bareV6 a => some ⟨.v6, a % 2 ^ 128, 128⟩
  | .netV4 a p => if p ≤ 32 then some ⟨.v4, maskAddr 32 a p, p⟩ else none
  | .netV6 a p => if p ≤ 128 then some ⟨.v6, maskAddr 128 a p, p⟩ else none
  | .unparseable => none

/-- Python's `ip in network` test: families must agree and the network
part of the address must equal the (already masked) network address. -/
def ip_in_network (ip : IpAddr) (net : IpNetwork) : Bool :=
  ip.family == net.family &&
    (ip.addr % 2 ^ net.family.bits) / 2 ^ (net.family.bits - net.prefixlen)
      == net.network_address / 2 ^ (net.family.bits - net.prefixlen)

/-- `_parse_networks` from `app/ipfilter.py`: parse each entry in order
and keep the successes. -/
def parse_networks (cidr_list : List CidrEntry) : List IpNetwork :=
  cidr_list.filterMap parse_cidr

/-- Python's `max(matching, key=prefixlen)`: the first element attaining
the largest `prefixlen` (later elements replace only on strictly larger
keys). -/
def max_by_prefixlen : List IpNetwork → Option IpNetwork
  | [] => none
  | n :: ns =>
    match max_by_prefixlen ns with
    | none => some n
    | some m => if m.prefixlen > n.prefixlen then some m else some n

/-- `_get_most_specific` from `app/ipfilter.py`: among the networks that
contain the address and share its family, return the one with the largest
prefix length. -/
def get_most_specific (networks : List IpNetwork) (ip_obj : IpAddr) : Option IpNetwork :=
  max_by_prefixlen
    (networks.filter (fun net => ip_in_network ip_obj net && net.family == ip_obj.family))

/-- A client IP string as classified by `ipaddress.ip_address`: either a
parsed address or unparseable (which also covers the empty string that
`check_ip_allowed` rejects up front). -/
inductive IpString where
  | valid (ip : IpAddr)
  | unparseable
deriving DecidableEq

/-- `check_ip_allowed` from `app/ipfilter.py`. -/
def check_ip_allowed (ip_str : IpString) (allow_list deny_list : List CidrEntry) : Bool :=
  match ip_str with
  | .unparseable => false
  | .valid ip_obj =>
    let allow_networks := parse_networks allow_list
    let deny_networks := parse_networks deny_list
    match get_most_specific allow_networks ip_obj, get_most_specific deny_networks ip_obj with
    | some _, none => true
    | some a, some d => decide (d.prefixlen ≤ a.prefixlen)
    | none, some _ => false
    | none, none => allow_networks.isEmpty

/-- The matching networks of the client's family in one list, written
from the specification's words (§4.2 step 3). -/
def spec_matching (networks : List IpNetwork) (ip : IpAddr) : List IpNetwork :=
  networks.filter (fun net => net.family == ip.family && ip_in_network ip net)

/-- The prefix length of the most specific matching network, written from
the specification's words: the largest prefix length among matches. -/
def spec_best_prefixlen (networks : List IpNetwork) (ip : IpAddr) : Option Nat :=
  ((spec_matching networks ip).map IpNetwork.prefixlen).max?

/-- The §4.2 decision table, written from the specification's words, to be
compared with the translated `check_ip_allowed`. -/
def check_ip_allowed_spec (ip_str : IpString) (allow_list deny_list : List CidrEntry) : Bool :=
  match ip_str with
  | .unparseable => false
  | .valid ip =>
    let allow_networks := parse_networks allow_list
    let deny_networks := parse_networks deny_list
    match spec_best_prefixlen allow_networks ip, spec_best_prefixlen deny_networks ip with
    | some _, none => true
    | some pa, some pd => decide (pd ≤ pa)
    | none, some _ => false
    | none, none => allow_networks.isEmpty

lemma max_by_prefixlen_map (l : List IpNetwork) :
    (max_by_prefixlen l).map IpNetwork.prefixlen = (l.map IpNetwork.prefixlen).max? := by
  induction l with
  | nil => rfl
  | cons n ns ih =>
    rw [List.map_cons, List.max?_cons, ← ih]
    cases h : max_by_prefixlen ns with
    | none => simp [max_by_prefixlen, h]
    | some m =>
      by_cases hc : m.prefixlen > n.prefixlen
      · simp [max_by_prefixlen, h, hc, Nat.max_eq_right (Nat.le_of_lt hc)]
      · simp [max_by_prefixlen, h, hc, Nat.max_eq_left (Nat.le_of_not_lt hc)]

lemma get_most_specific_prefixlen (nets : List IpNetwork) (ip : IpAddr) :
    (get_most_specific nets ip).map IpNetwork.prefixlen = spec_best_prefixlen nets ip := by
  unfold get_most_specific spec_best_prefixlen spec_matching
  have hf : nets.filter (fun net => ip_in_network ip net && net.family == ip.family)
      = nets.filter (fun net => net.family == ip.family && ip_in_network ip net) :=
    List.filter_congr (fun a _ => Bool.and_comm _ _)
  rw [max_by_prefixlen_map, hf]

/-- C3: for every client IP and every allow and deny list,
`check_ip_allowed` picks the most specific (largest prefix-length)
matching network of the IP's family in each list and decides per the
§4.2 table; an unparseable IP is denied. -/
theorem check_ip_allowed_matches_decision_table
    (ip_str : IpString) (allow_list deny_list : List CidrEntry) :
    check_ip_allowed ip_str allow_list deny_list
      = check_ip_allowed_spec ip_str allow_list deny_list := by
  cases ip_str with
  | unparseable => rfl
  | valid ip =>
    unfold check_ip_allowed check_ip_allowed_spec
    cases hA : get_most_specific (parse_networks allow_list) ip with
    | none =>
      have ha : spec_best_prefixlen (parse_networks allow_list) ip = none := by
        rw [← get_most_specific_prefixlen, hA]; rfl
      cases hD : get_most_specific (parse_networks deny_list) ip with
      | none =>
        have hd : spec_best_prefixlen (parse_networks deny_list) ip = none := by
          rw [← get_most_specific_prefixlen, hD]; rfl
        simp only [hA, hD, ha, hd]
      | some d =>
        have hd : spec_best_prefixlen (parse_networks deny_list) ip = some d.prefixlen := by
          rw [← get_most_specific_prefixlen, hD]; rfl
        simp only [hA, hD, ha, hd]
    | some a =>
      have ha : spec_best_prefixlen (parse_networks allow_list) ip = some a.prefixlen := by
        rw [← get_most_specific_prefixlen, hA]; rfl
      cases hD : get_most_specific (parse_networks deny_list) ip with
      | none =>
        have hd : spec_best_prefixlen (parse_networks deny_list) ip = none := by
          rw [← get_most_specific_prefixlen, hD]; rfl
        simp only [hA, hD, ha, hd]
      | some d =>
        have hd : spec_best_prefixlen (parse_networks deny_list) ip = some d.prefixlen := by
          rw [← get_most_specific_prefixlen, hD]; rfl
        simp only [hA, hD, ha, hd]

/-- The default `ip_allow` of a `RuleInfo` in `app/models.py`: the single
wildcard entry. -/
def default_ip_allow : List CidrEntry := [CidrEntry.wildcard]

/-- C9: the wildcard allow list (the default `ip_allow` of every rule)
parses to the IPv4 network `0.0.0.0/0` only, so every IPv6 client is
denied by it. -/
theorem wildcard_allow_denies_ipv6 (a : Nat) :
    check_ip_allowed (.valid ⟨.v6, a⟩) default_ip_allow [] = false := by
  have hmem : ip_in_network ⟨.v6, a⟩ ⟨.v4, 0, 0⟩ = false := by
    simp [ip_in_network]
  simp [check_ip_allowed, default_ip_allow, parse_networks, parse_cidr,
    get_most_specific, max_by_prefixlen, hmem]

lemma parse_networks_insert_unparseable (e : CidrEntry) (he : parse_cidr e = none)
    (l₁ l₂ : List CidrEntry) :
    parse_networks (l₁ ++ e :: l₂) = parse_networks (l₁ ++ l₂) := by
  simp [parse_networks, List.filterMap_append, List.filterMap_cons, he]

/-- C10: the decision of `check_ip_allowed` is unchanged by inserting an
unparseable CIDR entry at any position of either the allow or the deny
list, since `_parse_networks` silently drops entries that fail to parse. -/
theorem check_ip_allowed_ignores_unparseable
    (ip_str : IpString) (e : CidrEntry) (he : parse_cidr e = none)
    (a₁ a₂ d₁ d₂ : List CidrEntry) :
    check_ip_allowed ip_str (a₁ ++ e :: a₂) (d₁ ++ d₂)
        = check_ip_allowed ip_str (a₁ ++ a₂) (d₁ ++ d₂)
      ∧ check_ip_allowed ip_str (a₁ ++ a₂) (d₁ ++ e :: d₂)
        = check_ip_allowed ip_str (a₁ ++ a₂) (d₁ ++ d₂) := by
  cases ip_str with
  | unparseable => exact ⟨rfl, rfl⟩
  | valid ip =>
    unfold check_ip_allowed
    rw [parse_networks_insert_unparseable e he, parse_networks_insert_unparseable e he]
    exact ⟨rfl, rfl⟩

/-- Witness for C10 at concrete inputs: dropping the unparseable entry
from either list leaves the decision for client `0.0.0.1` unchanged. -/
theorem check_ip_allowed_ignores_unparseable_witness :
    check_ip_allowed (.valid ⟨.v4, 1⟩) ([] ++ CidrEntry.unparseable :: [CidrEntry.wildcard])
        ([] ++ [CidrEntry.netV4 0 8])
      = check_ip_allowed (.valid ⟨.v4, 1⟩) ([] ++ [CidrEntry.wildcard])
        ([] ++ [CidrEntry.netV4 0 8]) :=
  (check_ip_allowed_ignores_unparseable (.valid ⟨.v4, 1⟩) CidrEntry.unparseable rfl
    [] [CidrEntry.wildcard] [] [CidrEntry.netV4 0 8]).1

/-- The `Permission` enum from `app/models.py`. -/
inductive Permission where
  | R
  | W
  | D
deriving DecidableEq

/-- `UserInfo` from `app/models.py`. -/
structure UserInfo where
  name : String
  pass_hash : String
  is_bcrypt : Bool := false
deriving DecidableEq

/-- `RuleInfo` from `app/models.py`, with its default `ip_allow` of
`["*"]` and default empty `ip_deny`. -/
structure RuleInfo where
  who : String
  allow : List Permission
  roots : List String
  paths : List String
  ip_allow : List CidrEntry := default_ip_allow
  ip_deny : List CidrEntry := []
deriving DecidableEq

/-- `normalize_path` from `app/utils.py` (also the inline
`replace` calls of `rules.py`): backslashes become forward slashes.
String operations are written over the character list so that they
evaluate on concrete inputs. -/
def normalize_path (path : String) : String :=
  ⟨path.data.map (fun c => if c = '\\' then '/' else c)⟩

/-- Python's `str.strip()`: drop whitespace from both ends. -/
def py_strip (s : String) : String :=
  ⟨((s.data.dropWhile Char.isWhitespace).reverse.dropWhile Char.isWhitespace).reverse⟩

/-- Python's `str.lstrip('/')`: drop every leading `/`. -/
def py_lstrip_slash (s : String) : String :=
  ⟨s.data.dropWhile (fun c => c == '/')⟩

/-- Python's `str.startswith`. -/
def py_startswith (s pre : String) : Bool :=
  pre.data.isPrefixOf s.data

/-- Python's `str.endswith`. -/
def py_endswith (s suf : String) : Bool :=
  suf.data.isSuffixOf s.data

/-- Python's `str.split('/')` on the character list: split at every
separator, keeping empty segments. -/
def split_on_slash : List Char → List (List Char)
  | [] => [[]]
  | c :: cs =>
    if c = '/' then [] :: split_on_slash cs
    else
      match split_on_slash cs with
      | [] => [[c]]
      | seg :: segs => (c :: seg) :: segs

/-- Python's `str.split('/')`. -/
def py_split_slash (s : String) : List String :=
  (split_on_slash s.data).map (fun seg => ⟨seg⟩)

/-- The leading-slash normalization `_check_path_allowed` applies to both
the request path and each rule path. -/
def ensure_leading_slash (s : String) : String :=
  if py_startswith s "/" then s else "/" ++ s

/-- One iteration of the entry loop of `_check_path_allowed` in
`app/rules.py`: wildcard, exact, directory-suffix and prefix matches.
`rel_path` is already normalized by the caller. -/
def path_entry_matches (rel_path : String) (entry : String) : Bool :=
  let ap := ensure_leading_slash (normalize_path entry)
  if ap == "*" || ap == "/*" then true
  else if rel_path == ap then true
  else if py_endswith ap "/" then py_startswith rel_path ap
  else py_startswith rel_path (ap ++ "/")

/-- `_check_path_allowed` from `app/rules.py`. -/
def check_path_allowed (rel_path : String) (allowed_paths : List String) : Bool :=
  let rel := ensure_leading_slash (normalize_path rel_path)
  allowed_paths.any (fun entry => path_entry_matches rel entry)

/-- `RuleEvaluator._evaluate_rule` from `app/rules.py`: conjunction of
the operation, root, path and rule-local IP checks, with the source's
reason strings. -/
def evaluate_rule (rule : RuleInfo) (operation : Permission) (root_name rel_path : String)
    (client_ip : IpString) : Bool × String :=
  if !(rule.allow.contains operation) then
    (false, "Operation not allowed by rule")
  else if !(rule.roots.contains root_name) && !(rule.roots.contains "*") then
    (false, "Root not allowed by rule")
  else if !(check_path_allowed rel_path rule.paths) then
    (false, "Path not allowed by rule")
  else if !(check_ip_allowed client_ip rule.ip_allow rule.ip_deny) then
    (false, "IP not allowed by rule")
  else
    (true, "Access granted by rule")

/-- The `for rule in matching_rules` loop of `RuleEvaluator.evaluate`:
first rule that allows wins, otherwise the default denial. -/
def evaluate_loop (operation : Permission) (root_name rel_path : String) (client_ip : IpString) :
    List RuleInfo → Bool × String
  | [] => (false, "Access denied for operation")
  | rule :: rest =>
    let res := evaluate_rule rule operation root_name rel_path client_ip
    if res.1 then (true, res.2) else evaluate_loop operation root_name rel_path client_ip rest

/-- `RuleEvaluator.evaluate` from `app/rules.py`; `rules` is the
`config.rules` list of the active configuration snapshot. -/
def evaluate (rules : List RuleInfo) (user : Option UserInfo) (operation : Permission)
    (root_name rel_path : String) (client_ip : IpString) : Bool × String :=
  match user with
  | none => (false, "Authentication required")
  | some u =>
    let matching_rules := rules.filter (fun r => r.who == u.name || r.who == "*")
    if matching_rules.isEmpty then (false, "No access rules found for user")
    else evaluate_loop operation root_name rel_path client_ip matching_rules

lemma evaluate_rule_true_iff (rule : RuleInfo) (operation : Permission)
    (root_name rel_path : String) (client_ip : IpString) :
    (evaluate_rule rule operation root_name rel_path client_ip).1 = true ↔
      operation ∈ rule.allow ∧ (root_name ∈ rule.roots ∨ "*" ∈ rule.roots) ∧
        check_path_allowed rel_path rule.paths = true ∧
        check_ip_allowed client_ip rule.ip_allow rule.ip_deny = true := by
  unfold evaluate_rule
  split_ifs <;> (simp_all [List.contains]; try tauto)

lemma evaluate_loop_true_iff (operation : Permission) (root_name rel_path : String)
    (client_ip : IpString) (rules : List RuleInfo) :
    (evaluate_loop operation root_name rel_path client_ip rules).1 = true ↔
      ∃ r ∈ rules, (evaluate_rule r operation root_name rel_path client_ip).1 = true := by
  induction rules with
  | nil => simp [evaluate_loop]
  | cons r rest ih =>
    by_cases h : (evaluate_rule r operation root_name rel_path client_ip).1
    · simp [evaluate_loop, h]
    · simp only [Bool.not_eq_true] at h
      simp [evaluate_loop, h, ih]

/-- C2: `evaluate` allows if and only if the user is non-nil and some
configured rule matches the principal by name or wildcard, allows the
operation, covers the share by name or wildcard, glob-matches the
normalized path, and accepts the client IP through its rule-local
filter; in every other case (including a nil user) it denies. -/
theorem evaluate_allows_iff_matching_rule (rules : List RuleInfo) (user : Option UserInfo)
    (operation : Permission) (root_name rel_path : String) (client_ip : IpString) :
    (evaluate rules user operation root_name rel_path client_ip).1 = true ↔
      ∃ u, user = some u ∧
        ∃ r ∈ rules, (r.who = u.name ∨ r.who = "*") ∧
          operation ∈ r.allow ∧
          (root_name ∈ r.roots ∨ "*" ∈ r.roots) ∧
          check_path_allowed rel_path r.paths = true ∧
          check_ip_allowed client_ip r.ip_allow r.ip_deny = true := by
  cases user with
  | none => simp [evaluate]
  | some u =>
    unfold evaluate
    by_cases hempty : (rules.filter (fun r => r.who == u.name || r.who == "*")).isEmpty
    · rw [List.isEmpty_iff] at hempty
      simp only [hempty]
      constructor
      · intro h; simp at h
      · rintro ⟨u', hu', r, hr, hwho, _⟩
        cases hu'
        have : r ∈ rules.filter (fun r => r.who == u.name || r.who == "*") := by
          rw [List.mem_filter]
          refine ⟨hr, ?_⟩
          rcases hwho with h | h <;> simp [h]
        rw [hempty] at this
        simp at this
    · simp only [hempty, if_neg, Bool.false_eq_true, not_false_eq_true]
      rw [evaluate_loop_true_iff]
      constructor
      · rintro ⟨r, hr, htrue⟩
        rw [List.mem_filter] at hr
        rw [evaluate_rule_true_iff] at htrue
        refine ⟨u, rfl, r, hr.1, ?_, htrue⟩
        have := hr.2
        simp only [Bool.or_eq_true, beq_iff_eq] at this
        exact this
      · rintro ⟨u', hu', r, hr, hwho, hrest⟩
        cases hu'
        refine ⟨r, ?_, ?_⟩
        · rw [List.mem_filter]
          refine ⟨hr, ?_⟩
          rcases hwho with h | h <;> simp [h]
        · rw [evaluate_rule_true_iff]; exact hrest

/-- The two exception kinds `safe_join` in `app/fs.py` can raise:
`PathTraversalError` and `FileSystemError` (the latter wraps the
`OSError` of an unresolvable `Path.resolve`). -/
inductive JoinError where
  | pathTraversalError
  | fileSystemError
deriving DecidableEq

/-- The `for part in rel_path.split` loop of `safe_join`: skip empty and
current-directory segments, raise `PathTraversalError` on any `..`
segment, keep the rest in order. -/
def collect_parts : List String → Except JoinError (List String)
  | [] => .ok []
  | part :: rest =>
    if part = "" || part = "." then collect_parts rest
    else if part = ".." then .error .pathTraversalError
    else
      match collect_parts rest with
      | .ok parts => .ok (part :: parts)
      | .error e => .error e

/-- `safe_join` from `app/fs.py`.  Absolute paths are lists of segments.
The two opaque library calls are parameters proved over universally:
`unquote` is `urllib.parse.unquote`, and `resolve` is
`pathlib.Path.resolve(strict=False)` — the OS-level canonicalization that
follows symlinks; `none` is the `OSError` case that the source converts
to `FileSystemError`.  The source resolves `root_path` again in each
branch that needs it; since `resolve` is a function of the path this is
hoisted into a single `match`. -/
def safe_join (unquote : String → String) (resolve : List String → Option (List String))
    (root_path : List String) (rel_path0 : String) : Except JoinError (List String) :=
  let rel_path := normalize_path (unquote (py_strip rel_path0))
  match resolve root_path with
  | none => .error .fileSystemError
  | some base_path =>
    if rel_path = "" || rel_path = "." || rel_path = "./" then .ok base_path
    else
      let stripped := py_lstrip_slash rel_path
      match collect_parts (py_split_slash stripped) with
      | .error e => .error e
      | .ok parts =>
        match resolve (base_path ++ parts) with
        | none => .error .fileSystemError
        | some resolved_path =>
          if base_path.isPrefixOf resolved_path then .ok resolved_path
          else .error .pathTraversalError

lemma collect_parts_error_of_dotdot (l : List String) (h : ".." ∈ l) :
    collect_parts l = .error .pathTraversalError := by
  induction l with
  | nil => cases h
  | cons part rest ih =>
    unfold collect_parts
    rcases List.mem_cons.1 h with hhd | htl
    · subst hhd
      rw [if_neg (by decide), if_pos (by decide)]
    · by_cases h1 : part = "" || part = "."
      · simp [h1, ih htl]
      · by_cases h2 : part = ".."
        · simp [h1, h2]
        · simp [h1, h2, ih htl]

lemma safe_join_ok_cases (unquote : String → String)
    (resolve : List String → Option (List String)) (root_path : List String)
    (rel_path0 : String) (p : List String)
    (h : safe_join unquote resolve root_path rel_path0 = .ok p) :
    resolve root_path = some p ∨
      (∃ base parts, resolve root_path = some base ∧ resolve (base ++ parts) = some p ∧
        base.isPrefixOf p = true) := by
  unfold safe_join at h
  cases hr : resolve root_path with
  | none =>
    simp only [hr] at h
    exact Except.noConfusion h
  | some base =>
    simp only [hr] at h
    split at h
    · left
      exact congrArg Option.some (Except.ok.inj h)
    · cases hc : collect_parts
          (py_split_slash (py_lstrip_slash (normalize_path (unquote (py_strip rel_path0))))) with
      | error e =>
        simp only [hc] at h
        exact Except.noConfusion h
      | ok parts =>
        simp only [hc] at h
        cases hres : resolve (base ++ parts) with
        | none =>
          simp only [hres] at h
          exact Except.noConfusion h
        | some resolved =>
          simp only [hres] at h
          split at h
          next hpre =>
            right
            refine ⟨base, parts, rfl, ?_, ?_⟩
            · rw [hres]
              exact congrArg Option.some (Except.ok.inj h)
            · exact Except.ok.inj h ▸ hpre
          next => cases h

/-- C1: for every root and every untrusted relative-path string,
`safe_join` either fails or returns a path that extends the canonicalized
root (the root itself or a descendant) and contains no `..` segment; and
whenever the decoded, normalized input contains a `..` segment (and is
not one of the root aliases), it fails with `PathTraversalError`.  The
quantified `hres` hypothesis states the canonicalization contract of
`Path.resolve`: a resolved path has no `..` segments. -/
theorem safe_join_stays_within_root
    (unquote : String → String) (resolve : List String → Option (List String))
    (hres : ∀ q r, resolve q = some r → ".." ∉ r)
    (root_path : List String) (rel_path0 : String) :
    (∀ p, safe_join unquote resolve root_path rel_path0 = .ok p →
        (∃ base, resolve root_path = some base ∧ base.isPrefixOf p = true) ∧ ".." ∉ p)
      ∧ (¬(normalize_path (unquote (py_strip rel_path0)) = ""
            ∨ normalize_path (unquote (py_strip rel_path0)) = "."
            ∨ normalize_path (unquote (py_strip rel_path0)) = "./") →
          ".." ∈ py_split_slash (py_lstrip_slash (normalize_path (unquote (py_strip rel_path0)))) →
          resolve root_path ≠ none →
          safe_join unquote resolve root_path rel_path0 = .error .pathTraversalError) := by
  constructor
  · intro p hok
    rcases safe_join_ok_cases unquote resolve root_path rel_path0 p hok with hroot | ⟨base, parts, hb, hfull, hpre⟩
    · refine ⟨⟨p, hroot, ?_⟩, hres root_path p hroot⟩
      simp [List.isPrefixOf_iff_prefix]
    · exact ⟨⟨base, hb, hpre⟩, hres (base ++ parts) p hfull⟩
  · intro hsp hdd hroot
    unfold safe_join
    cases hr : resolve root_path with
    | none => exact absurd hr hroot
    | some base =>
      simp only
      have hcond : ¬((decide (normalize_path (unquote (py_strip rel_path0)) = "")
          || decide (normalize_path (unquote (py_strip rel_path0)) = ".")
          || decide (normalize_path (unquote (py_strip rel_path0)) = "./")) = true) := by
        simp only [Bool.or_eq_true, decide_eq_true_eq]
        tauto
      rw [if_neg hcond, collect_parts_error_of_dotdot _ hdd]

/-- A concrete canonicalization for the C1 witness: drop every `..`
segment (so its outputs satisfy the `Path.resolve` contract). -/
def resolve_drop_up (q : List String) : Option (List String) :=
  some (q.filter (fun s => !(s == "..")))

/-- Witness for C1: joining `a/b` onto the root `srv/pub` under the
sample canonicalization yields a `..`-free extension of the root. -/
theorem safe_join_stays_within_root_witness :
    (∃ base, resolve_drop_up ["srv", "pub"] = some base ∧
        base.isPrefixOf ["srv", "pub", "a", "b"] = true) ∧
      ".." ∉ (["srv", "pub", "a", "b"] : List String) :=
  (safe_join_stays_within_root id resolve_drop_up
      (by
        intro q r hqr
        rw [resolve_drop_up] at hqr
        cases hqr
        simp)
      ["srv", "pub"] "a/b").1
    ["srv", "pub", "a", "b"] (by rfl)

/-- The `dangerous_chars` string of `validate_filename` in
`app/utils.py`. -/
def dangerous_chars : String := "<>:\"/\\|?*"

/-- `validate_filename` from `app/utils.py`: reject empty, `.`, `..`,
any dangerous character, and any code point below 32. -/
def validate_filename (filename : String) : Bool :=
  if filename = "" || filename = "." || filename = ".." then false
  else if dangerous_chars.data.any (fun c => filename.data.contains c) then false
  else if filename.data.any (fun c => c.toNat < 32) then false
  else true

set_option maxRecDepth 4096 in
/-- Counterexample to C7 as stated: the DEL character (code point 0x7F)
passes `validate_filename`, and so does a 256-character name, though the
claim requires both to be rejected. -/
theorem validate_filename_claim_counterexample :
    validate_filename ⟨[Char.ofNat 127]⟩ = true ∧ (Char.ofNat 127).toNat = 127 ∧
      validate_filename ⟨List.replicate 256 'a'⟩ = true ∧
      (⟨List.replicate 256 'a'⟩ : String).length = 256 := by
  refine ⟨by decide, by decide, by decide, by decide⟩

/-- C7 (amended): a filename passes `validate_filename` if and only if
it is non-empty, is not `.` or `..`, contains no character among
`<>:"/\|?*`, and contains no code point below 0x20; contrary to the
original claim there is no check against 0x7F and no length bound. -/
theorem validate_filename_characterization (filename : String) :
    validate_filename filename = true ↔
      filename ≠ "" ∧ filename ≠ "." ∧ filename ≠ ".." ∧
        (∀ c ∈ filename.data, c ∉ dangerous_chars.data) ∧
        (∀ c ∈ filename.data, 32 ≤ c.toNat) := by
  constructor
  · intro h
    unfold validate_filename at h
    split_ifs at h with h1 h2 h3
    simp only [Bool.or_eq_true, decide_eq_true_eq, not_or] at h1
    simp only [List.any_eq_true] at h2 h3
    push_neg at h2 h3
    refine ⟨h1.1.1, h1.1.2, h1.2, ?_, ?_⟩
    · intro c hcf hcd
      have hcont : filename.data.contains c = true := by
        rw [List.contains_iff_exists_mem_beq]
        exact ⟨c, hcf, by simp⟩
      exact absurd hcont (h2 c hcd)
    · intro c hcf
      have hn := h3 c hcf
      simp only [ne_eq, decide_eq_true_eq] at hn
      omega
  · rintro ⟨hne, hnd, hndd, hdang, hctrl⟩
    unfold validate_filename
    have c2 : ¬((dangerous_chars.data.any fun c => filename.data.contains c) = true) := by
      rw [List.any_eq_true]
      rintro ⟨c, hcd, hcont⟩
      rw [List.contains_iff_exists_mem_beq] at hcont
      rcases hcont with ⟨c', hc', hbeq⟩
      rw [beq_iff_eq] at hbeq
      subst hbeq
      exact hdang c hc' hcd
    have c3 : ¬((filename.data.any fun c => decide (c.toNat < 32)) = true) := by
      rw [List.any_eq_true]
      rintro ⟨c, hcf, hdec⟩
      simp only [decide_eq_true_eq] at hdec
      exact absurd (hctrl c hcf) (by omega)
    rw [if_neg (by simp [hne, hnd, hndd]), if_neg c2, if_neg c3]

/-- `HttpRange` from `app/models.py`; `end_` is the source's `end`
field (a Lean keyword). -/
structure HttpRange where
  start : Option Int := none
  end_ : Option Int := none
  suffix_length : Option Int := none
deriving DecidableEq

/-- `HttpRange.resolve` from `app/models.py`: suffix ranges resolve
directly; otherwise defaults are substituted, `content_length ≤ 0`
short-circuits to `(0, -1)`, start and end are clamped, a start past the
last byte yields the empty range at EOF, and an end that fell below the
start (and is not `content_length - 1`) is raised to the start. -/
def HttpRange.resolve (r : HttpRange) (content_length : Int) : Int × Int :=
  match r.suffix_length with
  | some k => (max 0 (content_length - k), content_length - 1)
  | none =>
    let start0 := r.start.getD 0
    let end0 := r.end_.getD (content_length - 1)
    if content_length ≤ 0 then (0, -1)
    else
      let start1 := max 0 (min start0 content_length)
      let end1 := max (-1) (min end0 (content_length - 1))
      let start2 := if start1 > content_length - 1 then content_length else start1
      let end2 := if start1 > content_length - 1 then content_length - 1 else end1
      let end3 := if end2 < start2 ∧ end2 ≠ content_length - 1 then start2 else end2
      (start2, end3)

/-- Counterexample to C6 as stated: for size 10 the range
`start = 2, end = 1` clamps to `(2, 1)` per the claim, but `resolve`
raises the end to the start and returns `(2, 2)`; and for size 0 a
negative suffix length returns `(1, -1)`, not `(0, -1)`. -/
theorem http_range_resolve_claim_counterexample :
    HttpRange.resolve ⟨some 2, some 1, none⟩ 10 = (2, 2) ∧
      HttpRange.resolve ⟨some 2, some 1, none⟩ 10 ≠ (2, 1) ∧
      HttpRange.resolve ⟨none, none, some (-1)⟩ 0 = (1, -1) ∧
      HttpRange.resolve ⟨none, none, some (-1)⟩ 0 ≠ (0, -1) := by
  refine ⟨by rfl, by decide, by rfl, by decide⟩

/-- C6 (amended): `HttpRange.resolve` follows the §3 resolution rules
with one extra rule the claim omits: a suffix range is always
`[max(0, N-k), N-1]`; a non-suffix range over `N = 0` is `(0, -1)`;
otherwise the start is clamped into `[0, N]` and the end into
`[-1, N-1]` (a missing end means `N-1`), a start past `N-1` yields the
empty range `[N, N-1]`, and a clamped end that fell strictly below the
start (and is not `N-1`) is raised to the start. -/
theorem http_range_resolve_resolution_rules (r : HttpRange) (n : Int) (hn : 0 ≤ n) :
    (∀ k, r.suffix_length = some k → r.resolve n = (max 0 (n - k), n - 1))
    ∧ (r.suffix_length = none → n = 0 → r.resolve n = (0, -1))
    ∧ (r.suffix_length = none → 0 < n →
        (max 0 (min (r.start.getD 0) n) > n - 1 → r.resolve n = (n, n - 1))
        ∧ (max 0 (min (r.start.getD 0) n) ≤ n - 1 →
            max (-1) (min (r.end_.getD (n - 1)) (n - 1)) < max 0 (min (r.start.getD 0) n) →
            max (-1) (min (r.end_.getD (n - 1)) (n - 1)) ≠ n - 1 →
            r.resolve n = (max 0 (min (r.start.getD 0) n), max 0 (min (r.start.getD 0) n)))
        ∧ (max 0 (min (r.start.getD 0) n) ≤ n - 1 →
            (max 0 (min (r.start.getD 0) n) ≤ max (-1) (min (r.end_.getD (n - 1)) (n - 1))
              ∨ max (-1) (min (r.end_.getD (n - 1)) (n - 1)) = n - 1) →
            r.resolve n
              = (max 0 (min (r.start.getD 0) n),
                max (-1) (min (r.end_.getD (n - 1)) (n - 1))))) := by
  refine ⟨?_, ?_, ?_⟩
  · intro k hk
    simp only [HttpRange.resolve, hk]
  · intro hns hn0
    subst hn0
    simp only [HttpRange.resolve, hns]
    norm_num
  · intro hns hpos
    have hnle : ¬(n ≤ 0) := not_le.mpr hpos
    refine ⟨?_, ?_, ?_⟩
    · intro hgt
      simp only [HttpRange.resolve, hns, if_neg hnle, if_pos hgt]
      rw [if_neg ?_]
      intro hand
      exact hand.2 rfl
    · intro hle he hne
      have hngt : ¬(max 0 (min (r.start.getD 0) n) > n - 1) := not_lt.mpr hle
      simp only [HttpRange.resolve, hns, if_neg hnle, if_neg hngt]
      rw [if_pos ⟨he, hne⟩]
    · intro hle hor
      have hngt : ¬(max 0 (min (r.start.getD 0) n) > n - 1) := not_lt.mpr hle
      simp only [HttpRange.resolve, hns, if_neg hnle, if_neg hngt]
      rw [if_neg ?_]
      rintro ⟨hlt, hne⟩
      rcases hor with h | h
      · exact absurd hlt (not_lt.mpr h)
      · exact hne h

/-- Witness for C6 at concrete inputs: for size 10 the range
`start = 2, end = 4` resolves to its clamped bounds. -/
theorem http_range_resolve_resolution_rules_witness :
    HttpRange.resolve ⟨some 2, some 4, none⟩ 10
      = (max 0 (min ((some (2:Int)).getD 0) 10),
        max (-1) (min ((some (4:Int)).getD (10 - 1)) (10 - 1))) :=
  ((http_range_resolve_resolution_rules ⟨some 2, some 4, none⟩ 10 (by decide)).2.2
    rfl (by decide)).2.2 (by decide) (Or.inl (by decide))

/-- The streaming loop of `save_uploaded_file` in `app/fs.py` (lines
381-399): read a chunk, stop on an empty read, count the bytes, abort
(deleting the partial file) when the running total exceeds `max_size`,
otherwise append the chunk.  The stream is the list of chunks the reader
returns; the second component of the result is the file at the target
path (`none` when no file exists there). -/
def save_stream (chunks : List (List Nat)) (max_size : Option Nat) (bytes_written : Nat)
    (content : List Nat) : Except String Nat × Option (List Nat) :=
  match chunks with
  | [] => (.ok bytes_written, some content)
  | chunk :: rest =>
    if chunk.isEmpty then (.ok bytes_written, some content)
    else
      let bw := bytes_written + chunk.length
      if (match max_size with | some m => decide (bw > m) | none => false) then
        (.error "File too large", none)
      else save_stream rest max_size bw (content ++ chunk)

/-- `save_uploaded_file` from `app/fs.py`, restricted to its streaming
loop: the filename validation, share lookup and directory preparation
that precede the loop fail before any file is created and are outside
this claim. -/
def save_uploaded_file (chunks : List (List Nat)) (max_size : Option Nat) :
    Except String Nat × Option (List Nat) :=
  save_stream chunks max_size 0 []

lemma save_stream_spec (chunks : List (List Nat)) (m bytes_written : Nat)
    (content : List Nat) (hne : ∀ c ∈ chunks, c ≠ []) (hbw : bytes_written ≤ m) :
    (bytes_written + (chunks.map List.length).sum ≤ m →
      save_stream chunks (some m) bytes_written content
        = (.ok (bytes_written + (chunks.map List.length).sum),
          some (content ++ chunks.flatten)))
    ∧ (m < bytes_written + (chunks.map List.length).sum →
      save_stream chunks (some m) bytes_written content
        = (.error "File too large", none)) := by
  induction chunks generalizing bytes_written content with
  | nil =>
    refine ⟨fun _ => by simp [save_stream], fun h => ?_⟩
    simp only [List.map_nil, List.sum_nil, Nat.add_zero] at h
    omega
  | cons chunk rest ih =>
    have hchunk : chunk ≠ [] := hne chunk (List.mem_cons_self _ _)
    have hrest : ∀ c ∈ rest, c ≠ [] := fun c hc => hne c (List.mem_cons_of_mem _ hc)
    have hemp : chunk.isEmpty = false := by
      cases chunk with
      | nil => exact absurd rfl hchunk
      | cons a as => rfl
    constructor
    · intro hle
      simp only [List.map_cons, List.sum_cons] at hle
      have hbw' : bytes_written + chunk.length ≤ m := by omega
      have hnot : ¬((decide (bytes_written + chunk.length > m)) = true) := by
        simp only [decide_eq_true_eq]
        omega
      simp only [save_stream, hemp, Bool.false_eq_true, if_false, if_neg hnot]
      rw [(ih (bytes_written + chunk.length) (content ++ chunk) hrest hbw').1 (by omega)]
      simp only [List.map_cons, List.sum_cons, List.flatten_cons, List.append_assoc]
      congr 2
      omega
    · intro hgt
      simp only [List.map_cons, List.sum_cons] at hgt
      by_cases hover : bytes_written + chunk.length > m
      · have hdec : (decide (bytes_written + chunk.length > m)) = true := by
          simp only [decide_eq_true_eq]
          omega
        simp only [save_stream, hemp, Bool.false_eq_true, if_false, hdec, if_true]
      · have hnot : ¬((decide (bytes_written + chunk.length > m)) = true) := by
          simp only [decide_eq_true_eq]
          omega
        simp only [save_stream, hemp, Bool.false_eq_true, if_false, if_neg hnot]
        exact (ih (bytes_written + chunk.length) (content ++ chunk) hrest
          (by omega)).2 (by omega)

/-- C5: with a `max_size` cap, an upload whose stream totals at most
`max_size` bytes (every chunk before end-of-stream being nonempty, per
the reader contract) succeeds, returns the total and leaves the full
file; a stream whose running total ever exceeds the cap (equivalently,
whose total exceeds it) fails and no file exists at the target
afterwards. -/
theorem save_uploaded_file_max_size_cap (chunks : List (List Nat)) (m : Nat)
    (hne : ∀ c ∈ chunks, c ≠ []) :
    ((chunks.map List.length).sum ≤ m →
      save_uploaded_file chunks (some m)
        = (.ok ((chunks.map List.length).sum), some chunks.flatten))
    ∧ (m < (chunks.map List.length).sum →
      save_uploaded_file chunks (some m) = (.error "File too large", none)) := by
  have h := save_stream_spec chunks m 0 [] hne (Nat.zero_le m)
  simp only [Nat.zero_add, List.nil_append] at h
  exact h

/-- Witness for C5: a five-byte stream in chunks of two and three
succeeds under a cap of five and fails, leaving no file, under a cap of
four. -/
theorem save_uploaded_file_max_size_cap_witness :
    save_uploaded_file [[10, 11], [12, 13, 14]] (some 5)
        = (.ok 5, some [10, 11, 12, 13, 14]) ∧
      save_uploaded_file [[10, 11], [12, 13, 14]] (some 4)
        = (.error "File too large", none) := by
  constructor
  · have h := (save_uploaded_file_max_size_cap [[10, 11], [12, 13, 14]] 5 (by decide)).1
      (by decide)
    simpa using h
  · have h := (save_uploaded_file_max_size_cap [[10, 11], [12, 13, 14]] 4 (by decide)).2
      (by decide)
    simpa using h

/-- `TokenBucket` from `app/models.py`.  The float fields (and the
integer capacity, which Python mixes freely into the float arithmetic)
are embedded as rationals. -/
structure TokenBucket where
  capacity : ℚ
  tokens : ℚ
  last_refill : ℚ
  refill_rate : ℚ
deriving DecidableEq

/-- `TokenBucket.consume` from `app/models.py`: refill from the elapsed
time, cap at capacity, then subtract iff enough tokens are available.
`now` is the `time.time()` reading, stored back into `last_refill`. -/
def TokenBucket.consume (b : TokenBucket) (now : ℚ) (tokens_req : ℚ) : Bool × TokenBucket :=
  let elapsed := now - b.last_refill
  let refilled := min b.capacity (b.tokens + elapsed * b.refill_rate)
  if tokens_req ≤ refilled then
    (true, ⟨b.capacity, refilled - tokens_req, now, b.refill_rate⟩)
  else
    (false, ⟨b.capacity, refilled, now, b.refill_rate⟩)

/-- C8: `consume` first refills to `min(capacity, tokens + Δt·rate)`,
returns true and subtracts exactly `n` iff the refilled count is at
least `n`, otherwise returns false leaving the refilled count unchanged;
under nonnegative elapsed time, request, rate, capacity and prior count,
the resulting count stays within `[0, capacity]`. -/
theorem token_bucket_consume_spec (b : TokenBucket) (now n : ℚ)
    (hdt : b.last_refill ≤ now) (htok : 0 ≤ b.tokens) (hrate : 0 ≤ b.refill_rate)
    (hcap : 0 ≤ b.capacity) (hn : 0 ≤ n) :
    ((b.consume now n).1 = true ↔
      n ≤ min b.capacity (b.tokens + (now - b.last_refill) * b.refill_rate))
    ∧ ((b.consume now n).1 = true →
        (b.consume now n).2.tokens
          = min b.capacity (b.tokens + (now - b.last_refill) * b.refill_rate) - n)
    ∧ ((b.consume now n).1 = false →
        (b.consume now n).2.tokens
          = min b.capacity (b.tokens + (now - b.last_refill) * b.refill_rate))
    ∧ 0 ≤ (b.consume now n).2.tokens ∧ (b.consume now n).2.tokens ≤ b.capacity := by
  have hrefill0 : 0 ≤ b.tokens + (now - b.last_refill) * b.refill_rate := by
    have := mul_nonneg (sub_nonneg.mpr hdt) hrate
    linarith
  have hmin0 : 0 ≤ min b.capacity (b.tokens + (now - b.last_refill) * b.refill_rate) :=
    le_min hcap hrefill0
  have hmincap : min b.capacity (b.tokens + (now - b.last_refill) * b.refill_rate)
      ≤ b.capacity := min_le_left _ _
  by_cases h : n ≤ min b.capacity (b.tokens + (now - b.last_refill) * b.refill_rate)
  · have hres : b.consume now n = (true,
        ⟨b.capacity,
          min b.capacity (b.tokens + (now - b.last_refill) * b.refill_rate) - n,
          now, b.refill_rate⟩) := by
      unfold TokenBucket.consume
      rw [if_pos h]
    rw [hres]
    refine ⟨⟨fun _ => h, fun _ => rfl⟩, fun _ => rfl, fun hc => absurd hc (by simp), ?_, ?_⟩
    · exact sub_nonneg.mpr h
    · have hsub : min b.capacity (b.tokens + (now - b.last_refill) * b.refill_rate) - n
          ≤ min b.capacity (b.tokens + (now - b.last_refill) * b.refill_rate) := by
        linarith
      exact le_trans hsub hmincap
  · have hres : b.consume now n = (false,
        ⟨b.capacity,
          min b.capacity (b.tokens + (now - b.last_refill) * b.refill_rate),
          now, b.refill_rate⟩) := by
      unfold TokenBucket.consume
      rw [if_neg h]
    rw [hres]
    exact ⟨⟨fun hc => absurd hc (by simp), fun hle => absurd hle h⟩,
      fun hc => absurd hc (by simp), fun _ => rfl, hmin0, hmincap⟩

/-- Witness for C8: a bucket of capacity 10 holding 5 tokens refilled at
rate 1 for 2 seconds serves a request of 3 tokens. -/
theorem token_bucket_consume_spec_witness :
    ((((⟨10, 5, 0, 1⟩ : TokenBucket).consume 2 3).1 = true) ↔
        (3:ℚ) ≤ min 10 (5 + (2 - 0) * 1)) ∧
      ((((⟨10, 5, 0, 1⟩ : TokenBucket).consume 2 3).1 = true) →
        ((⟨10, 5, 0, 1⟩ : TokenBucket).consume 2 3).2.tokens
          = min 10 (5 + (2 - 0) * 1) - 3) ∧
      ((((⟨10, 5, 0, 1⟩ : TokenBucket).consume 2 3).1 = false) →
        ((⟨10, 5, 0, 1⟩ : TokenBucket).consume 2 3).2.tokens
          = min 10 (5 + (2 - 0) * 1)) ∧
      0 ≤ ((⟨10, 5, 0, 1⟩ : TokenBucket).consume 2 3).2.tokens ∧
      ((⟨10, 5, 0, 1⟩ : TokenBucket).consume 2 3).2.tokens ≤ 10 :=
  token_bucket_consume_spec ⟨10, 5, 0, 1⟩ 2 3 (show (0:ℚ) ≤ 2 by norm_num)
    (show (0:ℚ) ≤ 5 by norm_num) (show (0:ℚ) ≤ 1 by norm_num)
    (show (0:ℚ) ≤ 10 by norm_num) (show (0:ℚ) ≤ 3 by norm_num)

/-- `DirectTransferEntry` from `app/direct_transfer.py`; timestamps are
rationals (Python floats). -/
structure DirectTransferEntry where
  id : String
  sender : String
  recipient : String
  filename : String
  stored_filename : String
  size : Nat
  content_type : String
  created_at : ℚ
  expires_at : Option ℚ := none
deriving DecidableEq

/-- The observable state of a `DirectTransferStore`: the in-memory
`_entries` dict (an association list keyed by transfer id), the content
of the persisted `transfers.json` metadata file, and the payload files
present in the base directory. -/
structure StoreState where
  entries : List (String × DirectTransferEntry)
  persisted : List (String × DirectTransferEntry)
  payloads : List String
deriving DecidableEq

/-- The `DirectTransferError` kinds `prepare_download` raises, by HTTP
status code. -/
inductive DtError where
  | notFound
  | forbidden
deriving DecidableEq

/-- The `status_code` carried by each `DirectTransferError`. -/
def DtError.status_code : DtError → Nat
  | .notFound => 404
  | .forbidden => 403

/-- The per-entry removal test of `_prune_locked`: expired, or payload
file missing. -/
def should_prune (now : ℚ) (payloads : List String) (e : DirectTransferEntry) : Bool :=
  match e.expires_at with
  | some t => if t < now then true else !(payloads.contains e.stored_filename)
  | none => !(payloads.contains e.stored_filename)

/-- The iteration of `_prune_locked` over `_entries.items()`: each
pruned entry is popped and its payload file unlinked; the flag records
whether anything was removed. -/
def prune_loop (now : ℚ) : List (String × DirectTransferEntry) → List String →
    List (String × DirectTransferEntry) × List String × Bool
  | [], payloads => ([], payloads, false)
  | kv :: rest, payloads =>
    if should_prune now payloads kv.2 then
      let res := prune_loop now rest (payloads.filter (fun f => !(f == kv.2.stored_filename)))
      (res.1, res.2.1, true)
    else
      let res := prune_loop now rest payloads
      (kv :: res.1, res.2.1, res.2.2)

/-- `_prune_locked` from `app/direct_transfer.py`: prune the entries and
call `_save_locked` (persist the surviving entries) iff something was
removed. -/
def prune (now : ℚ) (st : StoreState) : StoreState :=
  let res := prune_loop now st.entries st.payloads
  ⟨res.1, if res.2.2 then res.1 else st.persisted, res.2.1⟩

/-- `DirectTransferStore.prepare_download` from
`app/direct_transfer.py`: under the store lock, prune, look the id up
(404 when absent), check the recipient (403 on mismatch), re-check the
payload file (404, removing and persisting, when gone), then pop the
entry and persist via `_save_locked` before returning the payload path
for streaming. -/
def prepare_download (now : ℚ) (st : StoreState) (transfer_id username : String) :
    Except DtError (String × DirectTransferEntry) × StoreState :=
  let st1 := prune now st
  match st1.entries.lookup transfer_id with
  | none => (.error .notFound, st1)
  | some entry =>
    if entry.recipient ≠ username then (.error .forbidden, st1)
    else if !(st1.payloads.contains entry.stored_filename) then
      let entries' := st1.entries.filter (fun kv => !(kv.1 == transfer_id))
      (.error .notFound, ⟨entries', entries', st1.payloads⟩)
    else
      let entries' := st1.entries.filter (fun kv => !(kv.1 == transfer_id))
      (.ok (entry.stored_filename, entry), ⟨entries', entries', st1.payloads⟩)

lemma lookup_filter_ne_key (l : List (String × DirectTransferEntry)) (tid : String) :
    (l.filter (fun kv => !(kv.1 == tid))).lookup tid = none := by
  induction l with
  | nil => rfl
  | cons kv rest ih =>
    by_cases h : kv.1 == tid
    · simp [List.filter_cons, h, ih]
    · simp only [List.filter_cons, h, Bool.not_false, if_pos]
      rw [List.lookup_cons]
      have hne' : kv.1 ≠ tid := by simpa using h
      have h' : (tid == kv.1) = false := by
        simp only [beq_eq_false_iff_ne]
        exact fun he => hne' he.symm
      simp [h', ih]

lemma prune_loop_lookup_none (now : ℚ) (l : List (String × DirectTransferEntry))
    (payloads : List String) (tid : String) (h : l.lookup tid = none) :
    (prune_loop now l payloads).1.lookup tid = none := by
  induction l generalizing payloads with
  | nil => simp [prune_loop]
  | cons kv rest ih =>
    rw [List.lookup_cons] at h
    have hne : (tid == kv.1) = false := by
      cases hb : tid == kv.1 with
      | false => rfl
      | true => rw [hb] at h; exact absurd h (by simp)
    rw [hne] at h
    simp only [Bool.false_eq_true, if_false] at h
    unfold prune_loop
    by_cases hp : should_prune now payloads kv.2
    · simp only [hp, if_pos]
      exact ih _ h
    · simp only [hp, Bool.false_eq_true, if_false]
      rw [List.lookup_cons, hne]
      simp only [Bool.false_eq_true, if_false]
      exact ih _ h

lemma prune_lookup_none (now : ℚ) (st : StoreState) (tid : String)
    (h : st.entries.lookup tid = none) :
    (prune now st).entries.lookup tid = none :=
  prune_loop_lookup_none now st.entries st.payloads tid h

lemma prepare_download_absent (now : ℚ) (st : StoreState) (tid username : String)
    (h : st.entries.lookup tid = none) :
    (prepare_download now st tid username).1 = .error .notFound
      ∧ (prepare_download now st tid username).2.entries.lookup tid = none := by
  have h1 : (prune now st).entries.lookup tid = none := prune_lookup_none now st tid h
  refine ⟨?_, ?_⟩ <;> simp [prepare_download, h1]

/-- C4: a direct transfer is delivered at most once.  A successful
`prepare_download` leaves a state with the transfer's metadata entry
removed and the metadata file persisted to exactly the surviving
entries, all before the payload path is handed to the streaming
response; from any state without the entry, `prepare_download` — for any
user and time — fails with the 404 `notFound` error and still has no
entry, so after one success every subsequent `prepare_download` of that
id returns 404. -/
theorem prepare_download_at_most_once :
    (∀ now st transfer_id username out st',
        prepare_download now st transfer_id username = (.ok out, st') →
          st'.entries.lookup transfer_id = none ∧ st'.persisted = st'.entries ∧
          ∀ now' username',
            (prepare_download now' st' transfer_id username').1 = .error .notFound)
    ∧ (∀ now st transfer_id username, st.entries.lookup transfer_id = none →
        (prepare_download now st transfer_id username).1 = .error .notFound
        ∧ (prepare_download now st transfer_id username).2.entries.lookup transfer_id
            = none)
    ∧ DtError.status_code .notFound = 404 := by
  refine ⟨?_, prepare_download_absent, rfl⟩
  intro now st transfer_id username out st' h
  unfold prepare_download at h
  cases hl : (prune now st).entries.lookup transfer_id with
  | none =>
    simp only [hl] at h
    exact absurd (congrArg Prod.fst h) (by simp)
  | some entry =>
    simp only [hl] at h
    by_cases hrec : entry.recipient ≠ username
    · rw [if_pos hrec] at h
      exact absurd (congrArg Prod.fst h) (by simp)
    · rw [if_neg hrec] at h
      by_cases hpay : (prune now st).payloads.contains entry.stored_filename
      · rw [if_neg (by simpa using hpay)] at h
        have hst' : st' = ⟨(prune now st).entries.filter (fun kv => !(kv.1 == transfer_id)),
            (prune now st).entries.filter (fun kv => !(kv.1 == transfer_id)),
            (prune now st).payloads⟩ := (congrArg Prod.snd h).symm
        subst hst'
        refine ⟨lookup_filter_ne_key _ _, rfl, ?_⟩
        intro now' username'
        exact (prepare_download_absent now' _ transfer_id username'
          (lookup_filter_ne_key _ _)).1
      · rw [if_pos (by simpa using hpay)] at h
        exact absurd (congrArg Prod.fst h) (by simp)

/-- A sample pending transfer for the C4 witness. -/
def sample_entry : DirectTransferEntry :=
  ⟨"t1", "alice", "bob", "doc.pdf", "t1.pdf", 5, "application/pdf", 0, none⟩

/-- A sample store holding only `sample_entry`, its payload present and
its metadata persisted. -/
def sample_store : StoreState :=
  ⟨[("t1", sample_entry)], [("t1", sample_entry)], ["t1.pdf"]⟩

/-- Witness for C4: after `bob` downloads transfer `t1` from the sample
store, the entry is gone, the metadata file matches, and a retry (even
by another user at a later time) gets 404. -/
theorem prepare_download_at_most_once_witness :
    ((⟨[], [], ["t1.pdf"]⟩ : StoreState).entries.lookup "t1" = none
      ∧ (⟨[], [], ["t1.pdf"]⟩ : StoreState).persisted
          = (⟨[], [], ["t1.pdf"]⟩ : StoreState).entries
      ∧ ∀ now' username',
          (prepare_download now' ⟨[], [], ["t1.pdf"]⟩ "t1" username').1
            = .error .notFound) :=
  prepare_download_at_most_once.1 0 sample_store "t1" "bob"
    ("t1.pdf", sample_entry) ⟨[], [], ["t1.pdf"]⟩ (by rfl)
